import Mathlib

/-!
Shallow embedding of the extraction core of `src/amazon_scraper.py`
(function `extract_product_data` and its helpers).

Python strings are modelled as `List Char` (`Str`), so that slicing
(`s[:30]`), `len`, `strip`, `split`/`join` and substring tests have
transparent list semantics.  A parsed BeautifulSoup element is modelled by
`Elem` (its `.text` and its optional `href` attribute); one search-result
entry (`item` in the source) is modelled by `Entry`, a pair of functions
giving, per CSS selector, what `item.select_one(selector)` and
`item.select(selector)` return.  A call that raises is modelled by
`Except.error ()`; a call that returns normally by `Except.ok`.
`select_one` returning `None` is `Except.ok none`; a found tag is treated
as truthy (`Except.ok (some e)`).
-/

abbrev Str := List Char

/-- A CSS selector expression, kept as an opaque string key. -/
abbrev Selector := String

/-- One matched element: its text content and its optional href attribute
(`none` models `not has_attr('href')`). -/
structure Elem where
  text : Str
  href : Option Str
deriving DecidableEq

/-- One product-entry node (`item` in the source): per selector, the result
of `item.select_one` (first match or `none`) and of `item.select` (all
matches).  `Except.error ()` models the call raising an exception. -/
structure Entry where
  selectOne : Selector → Except Unit (Option Elem)
  select : Selector → Except Unit (List Elem)

/-- Python `str.strip()`: drop leading and trailing whitespace. -/
def pyStrip (s : Str) : Str :=
  ((s.dropWhile Char.isWhitespace).reverse.dropWhile Char.isWhitespace).reverse

/-- Python `str.lower()`. -/
def lowerStr (s : Str) : Str := s.map Char.toLower

/-- Does `needle` occur at the head of `hay`? -/
def headMatch : Str → Str → Bool
  | [], _ => true
  | _ :: _, [] => false
  | a :: as2, b :: bs => a == b && headMatch as2 bs

/-- Python `needle in hay` for strings: contiguous substring test. -/
def isSubstr : Str → Str → Bool
  | needle, [] => needle.isEmpty
  | needle, c :: rest => headMatch needle (c :: rest) || isSubstr needle rest

/-- Python `str.split()` (no separator): whitespace-run splitting with no
empty tokens.  `acc` holds the chars of the current word, reversed. -/
def wordsAux : Str → Str → List Str
  | [], acc => if acc.isEmpty then [] else [acc.reverse]
  | c :: rest, acc =>
    if c.isWhitespace then
      if acc.isEmpty then wordsAux rest [] else acc.reverse :: wordsAux rest []
    else wordsAux rest (c :: acc)

def pyWords (s : Str) : List Str := wordsAux s []

/-- Python `" ".join(ws)`. -/
def joinWords : List Str → Str
  | [] => []
  | [w] => w
  | w :: ws => w ++ ' ' :: joinWords ws

/-- Python `" ".join(s.split())`: collapse whitespace runs to single
spaces, dropping leading/trailing whitespace. -/
def collapseWs (s : Str) : Str := joinWords (pyWords s)

-- Constants of the source file.
def MAX_PRODUCTS : Nat := 10
def MAX_NAME_LENGTH : Nat := 70
def AVAIL_MAX_LENGTH : Nat := 30
def baseOrigin : Str := "https://www.amazon.com".toList
def ellipsisMark : Str := "...".toList
def nameNA : Str := "N/A".toList
def noAvail : Str := "No availability info".toList
def noUrl : Str := "No URL available".toList

def name_selectors : List Selector :=
  [".a-size-medium.a-color-base.a-text-normal",
   ".a-link-normal .a-text-normal",
   "h2 a span",
   ".a-size-base-plus.a-color-base.a-text-normal",
   "h2 .a-link-normal"]

def url_selectors : List Selector :=
  ["h2 a.a-link-normal",
   ".a-link-normal.s-underline-text",
   ".a-link-normal.s-no-outline"]

def availability_selectors : List Selector :=
  [".a-color-success",
   ".a-color-price",
   ".a-color-base.a-text-bold",
   ".a-box-inner .a-section span",
   ".a-spacing-small span.a-text-bold",
   "#availability span",
   ".a-section.a-spacing-none.a-spacing-top-micro .a-row"]

def availability_keywords : List Str :=
  (["stock", "deliver", "ship", "arrive", "available", "sold", "unavailable"]
    : List String).map String.toList

/-- The name fallback loop: for each selector, `select_one`; on the first
found element return its stripped text; if none is found, `"N/A"`.
A raising `select_one` propagates (there is no per-rule handler here). -/
def nameLoop (item : Entry) : List Selector → Except Unit Str
  | [] => .ok nameNA
  | sel :: rest =>
    match item.selectOne sel with
    | .error e => .error e
    | .ok (some el) => .ok (pyStrip el.text)
    | .ok none => nameLoop item rest

/-- `relative_url.startswith('/')`. -/
def startsWithSlash : Str → Bool
  | '/' :: _ => true
  | _ => false

/-- URL resolution of one href value: a value starting with `/` is
prefixed with the base origin, anything else is used as-is. -/
def resolveUrl (h : Str) : Str :=
  if startsWithSlash h then baseOrigin ++ h else h

/-- The URL fallback loop: for each selector, `select_one`; the loop stops
at the first element that is found AND has an href attribute (`url_elem and
url_elem.has_attr('href')`); an element without href falls through to the
next selector.  `none` models the loop ending with `url` still `None`. -/
def urlLoop (item : Entry) : List Selector → Except Unit (Option Str)
  | [] => .ok none
  | sel :: rest =>
    match item.selectOne sel with
    | .error e => .error e
    | .ok (some el) =>
      match el.href with
      | some h => .ok (some (resolveUrl h))
      | none => urlLoop item rest
    | .ok none => urlLoop item rest

/-- The whole URL extraction: run the loop, then `if not url: url = "No
URL available"` — Python falsiness makes both `None` and the empty string
collapse to the sentinel. -/
def extractUrl (item : Entry) (sels : List Selector) : Except Unit Str :=
  match urlLoop item sels with
  | .error e => .error e
  | .ok none => .ok noUrl
  | .ok (some s) => .ok (if s.isEmpty then noUrl else s)

/-- `price_elem = item.select_one(".a-price .a-offscreen")` followed by
`price = price_elem.text.strip() if price_elem else "N/A"`. -/
def extractPrice (item : Entry) : Except Unit Str :=
  match item.selectOne ".a-price .a-offscreen" with
  | .error e => .error e
  | .ok (some el) => .ok (pyStrip el.text)
  | .ok none => .ok nameNA

/-- The acceptance test on one candidate text (already stripped):
`any(keyword in text.lower() for keyword in keywords) and len(text) > 3`. -/
def acceptText (t : Str) : Bool :=
  availability_keywords.any (fun kw => isSubstr kw (lowerStr t)) && decide (3 < t.length)

/-- The inner availability scan over all nodes matched by one selector:
the first accepted stripped text wins, otherwise `avail` is unchanged. -/
def availInner (avail : Str) : List Elem → Str
  | [] => avail
  | el :: rest =>
    let t := pyStrip el.text
    if acceptText t then t else availInner avail rest

/-- The availability selector loop.  A raising `item.select` is caught by
the per-rule `try`/`except` and the next selector is tried; after a
non-raising scan the loop stops as soon as `availability` differs from the
sentinel. -/
def availLoop (item : Entry) : List Selector → Str → Str
  | [], avail => avail
  | sel :: rest, avail =>
    match item.select sel with
    | .error _ => availLoop item rest avail
    | .ok elems =>
      let avail2 := availInner avail elems
      if avail2 ≠ noAvail then avail2 else availLoop item rest avail2

/-- Post-processing of the availability value: only a non-sentinel value is
whitespace-collapsed and, when longer than 30 chars, truncated to 30 with
an ellipsis appended. -/
def postAvail (availability : Str) : Str :=
  if availability ≠ noAvail then
    if AVAIL_MAX_LENGTH < (collapseWs availability).length then
      (collapseWs availability).take AVAIL_MAX_LENGTH ++ ellipsisMark
    else collapseWs availability
  else availability

/-- `truncated_name`: names longer than `MAX_NAME_LENGTH` are truncated
with an ellipsis appended. -/
def displayName (name : Str) : Str :=
  if MAX_NAME_LENGTH < name.length then name.take MAX_NAME_LENGTH ++ ellipsisMark
  else name

/-- One extracted product record. -/
structure Product where
  name : Str
  display_name : Str
  price : Str
  availability : Str
  url : Str
deriving DecidableEq

/-- The body of the per-entry `try` block: name, URL, price, availability,
then the record.  A raising step aborts the entry with `Except.error`. -/
def processEntry (item : Entry) : Except Unit Product :=
  match nameLoop item name_selectors with
  | .error e => .error e
  | .ok name =>
    match extractUrl item url_selectors with
    | .error e => .error e
    | .ok url =>
      match extractPrice item with
      | .error e => .error e
      | .ok price =>
        let availability := postAvail (availLoop item availability_selectors noAvail)
        .ok { name := name, display_name := displayName name, price := price,
              availability := availability, url := url }

/-- The parsed input of `extract_product_data`: the raw html text (for the
`if not html_content` falsiness check) and the entry nodes produced by the
document-level `soup.select` on the result-item container selector, in
document order. -/
structure Doc where
  html : Str
  items : List Entry

/-- `extract_product_data`: empty input gives `[]`; otherwise at most
`MAX_PRODUCTS` entries are processed in document order, an entry whose
processing raises is skipped (`except ... continue`). -/
def extract_product_data (doc : Doc) : List Product :=
  if doc.html.isEmpty then []
  else (doc.items.take MAX_PRODUCTS).filterMap (fun item => (processEntry item).toOption)

instance instDecEqExcept {e a : Type} [DecidableEq e] [DecidableEq a] :
    DecidableEq (Except e a)
  | .ok x, .ok y =>
    match decEq x y with
    | isTrue h => isTrue (by rw [h])
    | isFalse h => isFalse (by intro hc; cases hc; exact h rfl)
  | .ok _, .error _ => isFalse (by intro hc; cases hc)
  | .error _, .ok _ => isFalse (by intro hc; cases hc)
  | .error x, .error y =>
    match decEq x y with
    | isTrue h => isTrue (by rw [h])
    | isFalse h => isFalse (by intro hc; cases hc; exact h rfl)

/-- A rule that, for the URL loop, counts as a non-match: its selector
finds nothing, or finds an element with no href attribute. -/
def ruleNoHref (item : Entry) (s : Selector) : Prop :=
  item.selectOne s = .ok none ∨
  ∃ el, item.selectOne s = .ok (some el) ∧ el.href = none

-- Concrete entries used as witness and counterexample inputs.

/-- An entry whose third name selector finds an element with text `t`, and
on which every other selector finds nothing and every scan is empty. -/
def trivEntry (t : Str) : Entry where
  selectOne s := if s = "h2 a span" then .ok (some { text := t, href := none }) else .ok none
  select _ := .ok []

/-- The record `trivEntry t` extracts to. -/
def trivRecord (t : Str) : Product where
  name := pyStrip t
  display_name := displayName (pyStrip t)
  price := nameNA
  availability := noAvail
  url := noUrl

/-- An entry on which every `select_one` call raises. -/
def errEntry : Entry where
  selectOne _ := .error ()
  select _ := .ok []

/-- An entry whose first name selector raises while the second one finds
an element with text "Widget". -/
def nameRaiseEntry : Entry where
  selectOne s :=
    if s = ".a-size-medium.a-color-base.a-text-normal" then .error ()
    else if s = ".a-link-normal .a-text-normal" then
      .ok (some { text := "Widget".toList, href := none })
    else .ok none
  select _ := .ok []

/-- An entry whose first availability selector raises on `select`. -/
def availRaiseEntry : Entry where
  selectOne _ := .ok none
  select s := if s = ".a-color-success" then .error () else .ok []

/-- An element with no href attribute. -/
def hrefLessElem : Elem := { text := [], href := none }

/-- An entry whose first URL selector finds an element without href and
whose second URL selector finds one with href "/a". -/
def entryNoHrefA : Entry where
  selectOne s :=
    if s = "h2 a.a-link-normal" then .ok (some hrefLessElem)
    else if s = ".a-link-normal.s-underline-text" then
      .ok (some { text := [], href := some "/a".toList })
    else .ok none
  select _ := .ok []

/-- Same as `entryNoHrefA` except the second URL selector yields href "/b". -/
def entryNoHrefB : Entry where
  selectOne s :=
    if s = "h2 a.a-link-normal" then .ok (some hrefLessElem)
    else if s = ".a-link-normal.s-underline-text" then
      .ok (some { text := [], href := some "/b".toList })
    else .ok none
  select _ := .ok []

/-- An entry whose first URL selector finds an element whose href is the
empty string. -/
def emptyHrefEntry : Entry where
  selectOne s :=
    if s = "h2 a.a-link-normal" then .ok (some { text := [], href := some [] })
    else .ok none
  select _ := .ok []

/-- An entry whose first URL selector finds an element with an absolute
href. -/
def absHrefEntry : Entry where
  selectOne s :=
    if s = "h2 a.a-link-normal" then
      .ok (some { text := [], href := some "https://e.com/p".toList })
    else .ok none
  select _ := .ok []

/-- An entry whose first availability selector scan yields a rejected
candidate ("OK") followed by an accepted one (" In stock soon "). -/
def availEntry : Entry where
  selectOne _ := .ok none
  select s :=
    if s = ".a-color-success" then
      .ok [{ text := "OK".toList, href := none },
           { text := " In stock soon ".toList, href := none }]
    else .ok []

/-- An entry whose first name selector finds an element whose text strips
to the empty string. -/
def wsNameEntry : Entry where
  selectOne s :=
    if s = ".a-size-medium.a-color-base.a-text-normal" then
      .ok (some { text := "   ".toList, href := none })
    else .ok none
  select _ := .ok []

/-- A 25-entry document: entries named "A", "B", ... in document order. -/
def doc25 : Doc where
  html := ['x']
  items := (List.range 25).map (fun k => trivEntry [Char.ofNat (65 + k)])

-- Helper lemmas shared by the claim theorems.

lemma nameLoop_first_match (item : Entry) (pre : List Selector) (sel : Selector)
    (post : List Selector) (el : Elem)
    (hpre : ∀ s ∈ pre, item.selectOne s = .ok none)
    (hsel : item.selectOne sel = .ok (some el)) :
    nameLoop item (pre ++ sel :: post) = .ok (pyStrip el.text) := by
  induction pre with
  | nil => simp [nameLoop, hsel]
  | cons s rest ih =>
    have hs : item.selectOne s = .ok none := hpre s (List.mem_cons_self _ _)
    simp only [List.cons_append, nameLoop, hs]
    exact ih (fun x hx => hpre x (List.mem_cons_of_mem _ hx))

lemma urlLoop_first_href (item : Entry) (pre : List Selector) (sel : Selector)
    (post : List Selector) (el : Elem) (h : Str)
    (hpre : ∀ s ∈ pre, ruleNoHref item s)
    (hsel : item.selectOne sel = .ok (some el)) (hhref : el.href = some h) :
    urlLoop item (pre ++ sel :: post) = .ok (some (resolveUrl h)) := by
  induction pre with
  | nil => simp [urlLoop, hsel, hhref]
  | cons s rest ih =>
    have hs := hpre s (List.mem_cons_self _ _)
    have htail : ∀ x ∈ rest, ruleNoHref item x :=
      fun x hx => hpre x (List.mem_cons_of_mem _ hx)
    rcases hs with hs | ⟨el2, hs2, hh2⟩
    · simp only [List.cons_append, urlLoop, hs]
      exact ih htail
    · simp only [List.cons_append, urlLoop, hs2, hh2]
      exact ih htail

lemma urlLoop_all_nohref (item : Entry) (sels : List Selector)
    (hall : ∀ s ∈ sels, ruleNoHref item s) :
    urlLoop item sels = .ok none := by
  induction sels with
  | nil => rfl
  | cons s rest ih =>
    have hs := hall s (List.mem_cons_self _ _)
    have htail : ∀ x ∈ rest, ruleNoHref item x :=
      fun x hx => hall x (List.mem_cons_of_mem _ hx)
    rcases hs with hs | ⟨el2, hs2, hh2⟩
    · simp only [urlLoop, hs]
      exact ih htail
    · simp only [urlLoop, hs2, hh2]
      exact ih htail

lemma availInner_spec (avail : Str) (elems : List Elem) :
    availInner avail elems = avail ∨ acceptText (availInner avail elems) = true := by
  induction elems with
  | nil => left; rfl
  | cons el rest ih =>
    by_cases h : acceptText (pyStrip el.text)
    · right; simp [availInner, h]
    · simpa [availInner, h] using ih

lemma availInner_unchanged (avail : Str) (elems : List Elem)
    (hall : ∀ x ∈ elems, acceptText (pyStrip x.text) = false) :
    availInner avail elems = avail := by
  induction elems with
  | nil => rfl
  | cons el rest ih =>
    have he := hall el (List.mem_cons_self _ _)
    simp only [availInner, he, Bool.false_eq_true, if_false]
    exact ih (fun x hx => hall x (List.mem_cons_of_mem _ hx))

lemma availInner_first_accept (avail : Str) (pre post : List Elem) (el : Elem)
    (hpre : ∀ x ∈ pre, acceptText (pyStrip x.text) = false)
    (hel : acceptText (pyStrip el.text) = true) :
    availInner avail (pre ++ el :: post) = pyStrip el.text := by
  induction pre with
  | nil => simp [availInner, hel]
  | cons x rest ih =>
    have hx := hpre x (List.mem_cons_self _ _)
    simp only [List.cons_append, availInner, hx, Bool.false_eq_true, if_false]
    exact ih (fun y hy => hpre y (List.mem_cons_of_mem _ hy))

lemma availLoop_spec (sels : List Selector) (item : Entry) :
    availLoop item sels noAvail = noAvail ∨
    acceptText (availLoop item sels noAvail) = true := by
  induction sels with
  | nil => left; rfl
  | cons sel rest ih =>
    cases hsel : item.select sel with
    | error e =>
      simp only [availLoop, hsel]
      exact ih
    | ok elems =>
      by_cases hne : availInner noAvail elems = noAvail
      · simp only [availLoop, hsel, hne, ne_eq, not_true_eq_false, if_false]
        exact ih
      · right
        simp only [availLoop, hsel, ne_eq, hne, not_false_eq_true, if_true]
        rcases availInner_spec noAvail elems with h | h
        · exact absurd h hne
        · exact h

lemma wordsAux_no_ws (s : Str) : ∀ acc : Str,
    (∀ c ∈ acc, c.isWhitespace = false) →
    ∀ w ∈ wordsAux s acc, ∀ c ∈ w, c.isWhitespace = false := by
  induction s with
  | nil =>
    intro acc hacc w hw c hc
    by_cases h : acc.isEmpty
    · simp [wordsAux, h] at hw
    · simp [wordsAux, h] at hw
      subst hw
      exact hacc c (List.mem_reverse.mp hc)
  | cons ch rest ih =>
    intro acc hacc w hw c hc
    by_cases hws : ch.isWhitespace
    · by_cases hae : acc.isEmpty
      · simp [wordsAux, hws, hae] at hw
        exact ih [] (by simp) w hw c hc
      · simp [wordsAux, hws, hae] at hw
        rcases hw with hw | hw
        · subst hw
          exact hacc c (List.mem_reverse.mp hc)
        · exact ih [] (by simp) w hw c hc
    · simp only [wordsAux, hws, if_false] at hw
      refine ih (ch :: acc) ?_ w hw c hc
      intro c2 hc2
      rcases List.mem_cons.mp hc2 with rfl | hc2
      · exact Bool.eq_false_iff.mpr hws
      · exact hacc c2 hc2

lemma joinWords_chars : ∀ ws : List Str,
    (∀ w ∈ ws, ∀ c ∈ w, c.isWhitespace = false) →
    ∀ c ∈ joinWords ws, c = ' ' ∨ c.isWhitespace = false := by
  intro ws
  induction ws with
  | nil => intro _ c hc; simp [joinWords] at hc
  | cons w ws2 ih =>
    cases ws2 with
    | nil =>
      intro h c hc
      right
      exact h w (List.mem_singleton.mpr rfl) c (by simpa [joinWords] using hc)
    | cons w2 ws3 =>
      intro h c hc
      simp only [joinWords, List.mem_append, List.mem_cons] at hc
      rcases hc with hc | rfl | hc
      · exact Or.inr (h w (List.mem_cons_self _ _) c hc)
      · exact Or.inl rfl
      · exact ih (fun x hx => h x (List.mem_cons_of_mem _ hx)) c hc

lemma collapseWs_chars (a : Str) (c : Char) (hc : c ∈ collapseWs a) :
    c = ' ' ∨ c.isWhitespace = false :=
  joinWords_chars (pyWords a) (wordsAux_no_ws a [] (by simp)) c hc

-- Claim theorems.

/-- Claim C9: `display_name` equals the name truncated to 70 characters
with an ellipsis marker appended when the name is longer than 70
characters, and equals the name itself otherwise; hence it is always at
most 73 characters long. -/
theorem display_name_spec :
    (∀ name : Str, MAX_NAME_LENGTH < name.length →
        displayName name = name.take MAX_NAME_LENGTH ++ ellipsisMark) ∧
    (∀ name : Str, name.length ≤ MAX_NAME_LENGTH → displayName name = name) ∧
    (∀ name : Str, (displayName name).length ≤ 73) := by
  refine ⟨fun name h => ?_, fun name h => ?_, fun name => ?_⟩
  · unfold displayName
    rw [if_pos h]
  · unfold displayName
    rw [if_neg (Nat.not_lt.mpr h)]
  · have he : ellipsisMark.length = 3 := rfl
    have hm : MAX_NAME_LENGTH = 70 := rfl
    by_cases h : MAX_NAME_LENGTH < name.length
    · unfold displayName
      rw [if_pos h, List.length_append, List.length_take, he, hm]
      omega
    · unfold displayName
      rw [if_neg h]
      have h2 : name.length ≤ MAX_NAME_LENGTH := Nat.not_lt.mp h
      omega

/-- Witness for `display_name_spec`: a 71-character name is truncated, a
1-character name is unchanged. -/
theorem display_name_spec_witness :
    displayName (List.replicate 71 'a') =
      (List.replicate 71 'a').take MAX_NAME_LENGTH ++ ellipsisMark ∧
    displayName ['b'] = ['b'] :=
  ⟨display_name_spec.1 (List.replicate 71 'a') (by decide),
   display_name_spec.2.1 ['b'] (by decide)⟩

/-- Claim C4: the availability sentinel is never post-processed; a
non-sentinel value has its whitespace runs collapsed to single spaces and,
when the collapsed text is longer than 30 characters, is truncated to
exactly 30 characters with an ellipsis marker appended (total length 33);
no line-break character survives the collapsing. -/
theorem availability_postprocess :
    postAvail noAvail = noAvail ∧
    (∀ a : Str, a ≠ noAvail → (collapseWs a).length ≤ AVAIL_MAX_LENGTH →
        postAvail a = collapseWs a) ∧
    (∀ a : Str, a ≠ noAvail → AVAIL_MAX_LENGTH < (collapseWs a).length →
        postAvail a = (collapseWs a).take AVAIL_MAX_LENGTH ++ ellipsisMark ∧
        (postAvail a).length = 33) ∧
    (∀ a : Str, ∀ c ∈ collapseWs a, c = ' ' ∨ c.isWhitespace = false) := by
  refine ⟨?_, fun a ha hlen => ?_, fun a ha hlen => ?_,
    fun a c hc => collapseWs_chars a c hc⟩
  · simp [postAvail]
  · unfold postAvail
    rw [if_pos ha, if_neg (Nat.not_lt.mpr hlen)]
  · have heq : postAvail a = (collapseWs a).take AVAIL_MAX_LENGTH ++ ellipsisMark := by
      unfold postAvail
      rw [if_pos ha, if_pos hlen]
    refine ⟨heq, ?_⟩
    have he : ellipsisMark.length = 3 := rfl
    have hm : AVAIL_MAX_LENGTH = 30 := rfl
    rw [heq, List.length_append, List.length_take, he, hm]
    rw [hm] at hlen
    omega

/-- Witness for `availability_postprocess`: a short accepted value is only
collapsed; a long one (with an internal double space) is collapsed and
truncated. -/
theorem availability_postprocess_witness :
    postAvail "In stock".toList = collapseWs "In stock".toList ∧
    postAvail "Usually  ships within 4 to 5 days, free delivery".toList =
      (collapseWs "Usually  ships within 4 to 5 days, free delivery".toList).take
        AVAIL_MAX_LENGTH ++ ellipsisMark :=
  ⟨availability_postprocess.2.1 _ (by decide) (by decide),
   (availability_postprocess.2.2.1 _ (by decide) (by decide)).1⟩

/-- Claim C8: a document with empty html, and a document with zero entry
nodes, both yield the empty result list; the embedded
`extract_product_data` is a total function, so no exception arises. -/
theorem empty_doc_empty_result (doc : Doc) (h : doc.html = [] ∨ doc.items = []) :
    extract_product_data doc = [] := by
  rcases h with h | h
  · simp [extract_product_data, h]
  · simp [extract_product_data, h]

/-- Witness for `empty_doc_empty_result` at the empty document. -/
theorem empty_doc_empty_result_witness :
    extract_product_data { html := [], items := [] } = [] :=
  empty_doc_empty_result { html := [], items := [] } (Or.inl rfl)

/-- Claim C6: at most `MAX_PRODUCTS` (10) records are ever returned, taken
from the entry nodes in document order; on the 25-entry document `doc25`
exactly 10 records come back, one per entry, in document order. -/
theorem collector_cap :
    (∀ doc : Doc, (extract_product_data doc).length ≤ MAX_PRODUCTS) ∧
    extract_product_data doc25 =
      (List.range MAX_PRODUCTS).map (fun k => trivRecord [Char.ofNat (65 + k)]) := by
  constructor
  · intro doc
    unfold extract_product_data
    by_cases h : doc.html.isEmpty
    · rw [if_pos h]
      exact Nat.zero_le _
    · rw [if_neg h]
      refine le_trans (List.length_filterMap_le _ _) ?_
      rw [List.length_take]
      exact min_le_left _ _
  · decide

/-- Claim C7: an entry whose processing raises is skipped while every
other entry (before and after it) is still processed; in particular in a
3-entry document whose middle entry raises, the records of entries 1 and 3
come back, in order. -/
theorem entry_isolation :
    (∀ (html : Str) (pre post : List Entry) (e : Entry),
        html.isEmpty = false → (pre ++ e :: post).length ≤ MAX_PRODUCTS →
        processEntry e = .error () →
        extract_product_data { html := html, items := pre ++ e :: post } =
          extract_product_data { html := html, items := pre } ++
          extract_product_data { html := html, items := post }) ∧
    (∀ (html : Str) (e1 e2 e3 : Entry) (p1 p3 : Product),
        html.isEmpty = false → processEntry e1 = .ok p1 →
        processEntry e2 = .error () → processEntry e3 = .ok p3 →
        extract_product_data { html := html, items := [e1, e2, e3] } = [p1, p3]) := by
  constructor
  · intro html pre post e hh hlen herr
    have hm : MAX_PRODUCTS = 10 := rfl
    have hp : pre.length ≤ MAX_PRODUCTS := by
      rw [hm] at hlen ⊢
      simp only [List.length_append, List.length_cons] at hlen
      omega
    have hq : post.length ≤ MAX_PRODUCTS := by
      rw [hm] at hlen ⊢
      simp only [List.length_append, List.length_cons] at hlen
      omega
    simp only [extract_product_data, hh, Bool.false_eq_true, if_false,
      List.take_of_length_le hlen, List.take_of_length_le hp,
      List.take_of_length_le hq, List.filterMap_append, List.filterMap_cons,
      herr, Except.toOption]
  · intro html e1 e2 e3 p1 p3 hh h1 h2 h3
    have hlen : ([e1, e2, e3] : List Entry).length ≤ MAX_PRODUCTS := by
      have hm : MAX_PRODUCTS = 10 := rfl
      rw [hm]
      simp
    simp only [extract_product_data, hh, Bool.false_eq_true, if_false,
      List.take_of_length_le hlen, List.filterMap_cons, List.filterMap_nil,
      h1, h2, h3, Except.toOption]

/-- Witness for `entry_isolation`: with a raising middle entry between two
trivial entries, the two surrounding records survive. -/
theorem entry_isolation_witness :
    extract_product_data
        { html := ['x'], items := [trivEntry ['a'], errEntry, trivEntry ['c']] } =
      [trivRecord ['a'], trivRecord ['c']] :=
  entry_isolation.2 ['x'] (trivEntry ['a']) errEntry (trivEntry ['c'])
    (trivRecord ['a']) (trivRecord ['c']) (by decide) (by decide) (by decide) (by decide)

/-- Claim C3: a non-sentinel availability result always satisfies the
acceptance test — its (already trimmed) text is longer than 3 characters
and case-insensitively contains a configured keyword; within one rule all
matched nodes are scanned in order and the first accepted candidate wins;
a rule none of whose candidates is accepted is passed over, and the loop
stops at the first rule with an accepted candidate. -/
theorem availability_classifier :
    (∀ (item : Entry) (sels : List Selector),
        availLoop item sels noAvail ≠ noAvail →
        3 < (availLoop item sels noAvail).length ∧
        availability_keywords.any
          (fun kw => isSubstr kw (lowerStr (availLoop item sels noAvail))) = true) ∧
    (∀ (avail : Str) (pre post : List Elem) (el : Elem),
        (∀ x ∈ pre, acceptText (pyStrip x.text) = false) →
        acceptText (pyStrip el.text) = true →
        availInner avail (pre ++ el :: post) = pyStrip el.text) ∧
    (∀ (item : Entry) (sel : Selector) (rest : List Selector) (elems : List Elem),
        item.select sel = .ok elems →
        (∀ x ∈ elems, acceptText (pyStrip x.text) = false) →
        availLoop item (sel :: rest) noAvail = availLoop item rest noAvail) ∧
    (∀ (item : Entry) (sel : Selector) (rest : List Selector) (elems : List Elem),
        item.select sel = .ok elems → availInner noAvail elems ≠ noAvail →
        availLoop item (sel :: rest) noAvail = availInner noAvail elems) := by
  refine ⟨fun item sels hne => ?_, fun avail pre post el h1 h2 =>
    availInner_first_accept avail pre post el h1 h2,
    fun item sel rest elems hsel hall => ?_, fun item sel rest elems hsel hne => ?_⟩
  · rcases availLoop_spec sels item with h | h
    · exact absurd h hne
    · have hand := h
      unfold acceptText at hand
      rw [Bool.and_eq_true] at hand
      refine ⟨?_, hand.1⟩
      have := hand.2
      exact of_decide_eq_true this
  · have hinner : availInner noAvail elems = noAvail := availInner_unchanged _ _ hall
    simp only [availLoop, hsel, hinner, ne_eq, not_true_eq_false, if_false]
  · simp only [availLoop, hsel, ne_eq, hne, not_false_eq_true, if_true]

/-- Witness for `availability_classifier` on `availEntry`: the first rule
matches a rejected short candidate then an accepted one, and the accepted
candidate is the final value and passes the test. -/
theorem availability_classifier_witness :
    (3 < (availLoop availEntry availability_selectors noAvail).length ∧
      availability_keywords.any
        (fun kw =>
          isSubstr kw (lowerStr (availLoop availEntry availability_selectors noAvail)))
        = true) ∧
    availInner noAvail
        [{ text := "OK".toList, href := none },
         { text := " In stock soon ".toList, href := none }] =
      pyStrip " In stock soon ".toList ∧
    availLoop availEntry [".a-color-price"] noAvail = availLoop availEntry [] noAvail ∧
    availLoop availEntry availability_selectors noAvail =
      availInner noAvail
        [{ text := "OK".toList, href := none },
         { text := " In stock soon ".toList, href := none }] :=
  ⟨availability_classifier.1 availEntry availability_selectors (by decide),
   availability_classifier.2.1 noAvail [{ text := "OK".toList, href := none }] []
     { text := " In stock soon ".toList, href := none } (by decide) (by decide),
   availability_classifier.2.2.1 availEntry ".a-color-price" [] [] (by decide) (by decide),
   availability_classifier.2.2.2 availEntry ".a-color-success" availability_selectors.tail
     [{ text := "OK".toList, href := none },
      { text := " In stock soon ".toList, href := none }] (by decide) (by decide)⟩

/-- Claim C1 (amended): first-success-wins with the match notion the code
actually uses.  For name rules a rule matches when its selector finds an
element, and the first matching rule's stripped text is returned no matter
what the later rules would do; for URL rules a rule matches only when its
selector finds an element that has an href attribute — a found element
without href counts as no match and the loop moves on — and the first such
rule's resolved href is returned no matter what the later rules would do. -/
theorem first_rule_wins :
    (∀ (item : Entry) (pre post : List Selector) (sel : Selector) (el : Elem),
        (∀ s ∈ pre, item.selectOne s = .ok none) →
        item.selectOne sel = .ok (some el) →
        nameLoop item (pre ++ sel :: post) = .ok (pyStrip el.text)) ∧
    (∀ (item : Entry) (pre post : List Selector) (sel : Selector) (el : Elem) (h : Str),
        (∀ s ∈ pre, ruleNoHref item s) →
        item.selectOne sel = .ok (some el) → el.href = some h →
        urlLoop item (pre ++ sel :: post) = .ok (some (resolveUrl h))) :=
  ⟨fun item pre post sel el hpre hsel =>
    nameLoop_first_match item pre sel post el hpre hsel,
   fun item pre post sel el h hpre hsel hhref =>
    urlLoop_first_href item pre sel post el h hpre hsel hhref⟩

/-- Counterexample to claim C1 as stated: on `entryNoHrefA` and
`entryNoHrefB` the first URL rule's selector matches the same element (one
without an href attribute), so a result determined by the first matching
rule would have to be identical, yet the two results differ — the rules
after the first matching one are still evaluated. -/
theorem first_rule_wins_cex :
    entryNoHrefA.selectOne "h2 a.a-link-normal" = .ok (some hrefLessElem) ∧
    entryNoHrefB.selectOne "h2 a.a-link-normal" = .ok (some hrefLessElem) ∧
    urlLoop entryNoHrefA url_selectors ≠ urlLoop entryNoHrefB url_selectors := by
  refine ⟨by decide, by decide, by decide⟩

/-- Witness for `first_rule_wins`: the name of `trivEntry ['a']` comes from
its third selector after two non-matching ones, and the URL of
`entryNoHrefA` comes from its second selector after one href-less match. -/
theorem first_rule_wins_witness :
    nameLoop (trivEntry ['a']) name_selectors = .ok (pyStrip ['a']) ∧
    urlLoop entryNoHrefA url_selectors =
      .ok (some (resolveUrl "/a".toList)) :=
  ⟨first_rule_wins.1 (trivEntry ['a'])
      [".a-size-medium.a-color-base.a-text-normal", ".a-link-normal .a-text-normal"]
      [".a-size-base-plus.a-color-base.a-text-normal", "h2 .a-link-normal"]
      "h2 a span" { text := ['a'], href := none } (by decide) (by decide),
   first_rule_wins.2 entryNoHrefA
      ["h2 a.a-link-normal"] [".a-link-normal.s-no-outline"]
      ".a-link-normal.s-underline-text" { text := [], href := some "/a".toList }
      "/a".toList
      (by
        intro s hs
        simp only [List.mem_singleton] at hs
        subst hs
        exact Or.inr ⟨hrefLessElem, by decide, rfl⟩)
      (by decide) rfl⟩

/-- Claim C2 (amended): only the availability loop has a per-rule handler
— a raising `select` there is treated as no match and the next rule is
tried; a raising `select_one` in the name or URL loop propagates out of
the per-field loop (it is caught only by the per-entry handler). -/
theorem per_rule_error_handling :
    (∀ (item : Entry) (sel : Selector) (rest : List Selector) (avail : Str),
        item.select sel = .error () →
        availLoop item (sel :: rest) avail = availLoop item rest avail) ∧
    (∀ (item : Entry) (sel : Selector) (rest : List Selector),
        item.selectOne sel = .error () →
        nameLoop item (sel :: rest) = .error () ∧
        urlLoop item (sel :: rest) = .error ()) := by
  constructor
  · intro item sel rest avail herr
    simp only [availLoop, herr]
  · intro item sel rest herr
    constructor
    · simp only [nameLoop, herr]
    · simp only [urlLoop, herr]

/-- Counterexample to claim C2 as stated: on `nameRaiseEntry` the first
name rule raises while the second one matches "Widget"; were the failure
treated as no match the name extraction would return "Widget", but the
exception escapes the per-field loop and the whole entry processing
fails. -/
theorem per_rule_error_cex :
    nameRaiseEntry.selectOne ".a-link-normal .a-text-normal" =
      .ok (some { text := "Widget".toList, href := none }) ∧
    nameLoop nameRaiseEntry name_selectors = .error () ∧
    nameLoop nameRaiseEntry name_selectors ≠ .ok "Widget".toList ∧
    processEntry nameRaiseEntry = .error () := by
  refine ⟨by decide, by decide, by decide, by decide⟩

/-- Witness for `per_rule_error_handling`: a raising first availability
rule on `availRaiseEntry` is skipped, while a raising first name rule on
`nameRaiseEntry` makes the name and URL loops themselves fail. -/
theorem per_rule_error_handling_witness :
    availLoop availRaiseEntry availability_selectors noAvail =
      availLoop availRaiseEntry availability_selectors.tail noAvail ∧
    (nameLoop nameRaiseEntry name_selectors = .error () ∧
      urlLoop nameRaiseEntry name_selectors = .error ()) :=
  ⟨per_rule_error_handling.1 availRaiseEntry ".a-color-success"
      availability_selectors.tail noAvail (by decide),
   per_rule_error_handling.2 nameRaiseEntry ".a-size-medium.a-color-base.a-text-normal"
      [".a-link-normal .a-text-normal", "h2 a span",
       ".a-size-base-plus.a-color-base.a-text-normal", "h2 .a-link-normal"]
      (by decide)⟩

/-- Claim C5 (amended): the first href value found (with earlier rules not
matching or matching without href) is prefixed with the base origin when
it starts with "/", and passed through unchanged when it is non-empty and
does not start with "/"; an empty href value, however, is replaced by the
sentinel (Python falsiness of the empty string), and when no rule yields
an href the sentinel is returned. -/
theorem url_resolution :
    (∀ (item : Entry) (pre post : List Selector) (sel : Selector) (el : Elem) (h : Str),
        (∀ s ∈ pre, ruleNoHref item s) →
        item.selectOne sel = .ok (some el) → el.href = some h →
        (startsWithSlash h = true →
          extractUrl item (pre ++ sel :: post) = .ok (baseOrigin ++ h)) ∧
        (startsWithSlash h = false → h ≠ [] →
          extractUrl item (pre ++ sel :: post) = .ok h) ∧
        (h = [] → extractUrl item (pre ++ sel :: post) = .ok noUrl)) ∧
    (∀ (item : Entry) (sels : List Selector),
        (∀ s ∈ sels, ruleNoHref item s) → extractUrl item sels = .ok noUrl) := by
  constructor
  · intro item pre post sel el h hpre hsel hhref
    have hloop := urlLoop_first_href item pre sel post el h hpre hsel hhref
    refine ⟨fun hsl => ?_, fun hsl hne => ?_, fun hnil => ?_⟩
    · have hres : resolveUrl h = baseOrigin ++ h := by
        unfold resolveUrl
        rw [if_pos hsl]
      have hb : baseOrigin ++ h ≠ [] := by
        intro hc
        have : baseOrigin = [] := (List.append_eq_nil.mp hc).1
        exact absurd this (by decide)
      simp only [extractUrl, hloop, hres]
      simp [List.isEmpty_iff, hb]
    · have hres : resolveUrl h = h := by
        unfold resolveUrl
        rw [if_neg (by rw [hsl]; exact Bool.false_ne_true)]
      simp only [extractUrl, hloop, hres]
      simp [List.isEmpty_iff, hne]
    · subst hnil
      have hres : resolveUrl [] = [] := by
        unfold resolveUrl
        rw [if_neg (by exact Bool.false_ne_true)]
      simp only [extractUrl, hloop, hres]
      simp
  · intro item sels hall
    have hloop := urlLoop_all_nohref item sels hall
    simp only [extractUrl, hloop]

/-- Counterexample to claim C5 as stated: on `emptyHrefEntry` the first URL
rule matches an element whose href attribute is the empty string — a value
that does not start with "/" — yet it is not passed through unchanged: the
sentinel comes back instead. -/
theorem url_resolution_cex :
    emptyHrefEntry.selectOne "h2 a.a-link-normal" =
      .ok (some { text := [], href := some ([] : Str) }) ∧
    extractUrl emptyHrefEntry url_selectors = .ok noUrl ∧
    extractUrl emptyHrefEntry url_selectors ≠ .ok ([] : Str) := by
  refine ⟨by decide, by decide, by decide⟩

/-- Witness for `url_resolution`: a relative href is resolved against the
base origin, an absolute href passes through, and an entry with no
href-bearing rule yields the sentinel. -/
theorem url_resolution_witness :
    extractUrl entryNoHrefA url_selectors = .ok (baseOrigin ++ "/a".toList) ∧
    extractUrl absHrefEntry url_selectors = .ok "https://e.com/p".toList ∧
    extractUrl (trivEntry ['a']) url_selectors = .ok noUrl :=
  ⟨(url_resolution.1 entryNoHrefA ["h2 a.a-link-normal"]
      [".a-link-normal.s-no-outline"] ".a-link-normal.s-underline-text"
      { text := [], href := some "/a".toList } "/a".toList
      (by
        intro s hs
        simp only [List.mem_singleton] at hs
        subst hs
        exact Or.inr ⟨hrefLessElem, by decide, rfl⟩)
      (by decide) rfl).1 (by decide),
   (url_resolution.1 absHrefEntry []
      [".a-link-normal.s-underline-text", ".a-link-normal.s-no-outline"]
      "h2 a.a-link-normal"
      { text := [], href := some "https://e.com/p".toList } "https://e.com/p".toList
      (by intro s hs; simp at hs) (by decide) rfl).2.1 (by decide) (by decide),
   url_resolution.2 (trivEntry ['a']) url_selectors
     (by
       intro s hs
       fin_cases hs <;> exact Or.inl (by decide))⟩

/-- Claim C10: a name rule whose selector finds an element is accepted
regardless of the element's text content — if the first matching element's
text strips to the empty string, the extracted name is the empty string,
which differs from the sentinel "N/A", and the later rules play no part in
the result. -/
theorem empty_name_accepted :
    (∀ (item : Entry) (pre post : List Selector) (sel : Selector) (el : Elem),
        (∀ s ∈ pre, item.selectOne s = .ok none) →
        item.selectOne sel = .ok (some el) → pyStrip el.text = [] →
        nameLoop item (pre ++ sel :: post) = .ok []) ∧
    ([] : Str) ≠ nameNA := by
  constructor
  · intro item pre post sel el hpre hsel hstrip
    rw [nameLoop_first_match item pre sel post el hpre hsel, hstrip]
  · decide

/-- Witness for `empty_name_accepted`: on `wsNameEntry` the first name rule
matches an element whose text is three spaces, and the extracted name is
the empty string. -/
theorem empty_name_accepted_witness :
    nameLoop wsNameEntry name_selectors = .ok [] :=
  empty_name_accepted.1 wsNameEntry []
    [".a-link-normal .a-text-normal", "h2 a span",
     ".a-size-base-plus.a-color-base.a-text-normal", "h2 .a-link-normal"]
    ".a-size-medium.a-color-base.a-text-normal"
    { text := "   ".toList, href := none }
    (by intro s hs; simp at hs) (by decide) (by decide)
